import Mathlib

/-!
# Verification of the sanhedrin task-orchestration core

Shallow embedding of the core data model and operations of the sanhedrin
repository (Python), together with theorems settling the frozen claims.

Embedded modules:
* `src/sanhedrin/core/state_machine.py` — task lifecycle state machine
* `src/sanhedrin/server/task_manager.py` — task store, creation, cleanup
* `src/sanhedrin/server/handlers/jsonrpc_handler.py` — JSON-RPC error mapping
* `src/sanhedrin/orchestration/router.py` — routing strategies
* `src/sanhedrin/orchestration/catalog.py` — agent catalog and indices

Conventions: Python mutation is modelled by explicit state passing; raising an
exception is modelled by `Except`; timestamps are abstract integers supplied by
the caller; Python `dict`s preserving insertion order are association lists;
Python `set`s are lists with membership semantics.
-/

/-! ## Core data model (`core/types.py`, `core/state_machine.py`) -/

/-- `TaskState` enum from `core/types.py`. -/
inductive TaskState where
  | submitted
  | working
  | input_required
  | completed
  | canceled
  | failed
  | rejected
  | auth_required
  | unknown
deriving DecidableEq

/-- `Role` enum from `core/types.py`. -/
inductive Role where
  | user
  | agent
deriving DecidableEq

/-- `Message` from `core/types.py`, reduced to the fields the verified
operations inspect (role and textual parts). -/
structure Message where
  role : Role
  parts : List String
deriving DecidableEq

/-- `VALID_TRANSITIONS` table from `core/state_machine.py` (sets modelled as
lists with membership semantics). -/
def VALID_TRANSITIONS : TaskState → List TaskState
  | .submitted => [.working, .completed, .failed, .rejected, .canceled]
  | .working => [.completed, .failed, .canceled, .input_required, .auth_required]
  | .input_required => [.working, .completed, .failed, .canceled]
  | .auth_required => [.working, .failed, .canceled]
  | .completed => []
  | .failed => []
  | .canceled => []
  | .rejected => []
  | .unknown => []

/-- `TERMINAL_STATES` from `core/state_machine.py`: note it does NOT contain
`unknown`. -/
def TERMINAL_STATES : List TaskState :=
  [.completed, .failed, .canceled, .rejected]

/-- `StateTransitionRecord` from `core/state_machine.py`. -/
structure StateTransitionRecord where
  from_state : TaskState
  to_state : TaskState
  timestamp : Int
  reason : Option String
deriving DecidableEq

/-- `InvalidStateTransitionError` from `core/errors.py` (carried data). -/
structure InvalidStateTransitionError where
  from_state : TaskState
  to_state : TaskState
  valid_transitions : List TaskState
deriving DecidableEq

/-- `TaskStatus` as constructed by `core/state_machine.py` (fields `state`,
`message`, `timestamp` of `core/types.py`). -/
structure TaskStatus where
  state : TaskState
  message : Option Message
  timestamp : Option Int
deriving DecidableEq

/-- `TaskStateMachine` dataclass from `core/state_machine.py`. -/
structure TaskStateMachine where
  current_state : TaskState
  history : List StateTransitionRecord
  _created_at : Int
deriving DecidableEq

/-- `TaskStateMachine.__init__` plus `__post_init__`: seeds the history with
the `unknown → initial` record. -/
def mkTaskStateMachine (initial : TaskState) (now : Int) : TaskStateMachine :=
  ⟨initial, [⟨.unknown, initial, now, some "Initial state"⟩], now⟩

/-- `TaskStateMachine.can_transition_to`. -/
def TaskStateMachine.can_transition_to (sm : TaskStateMachine)
    (target_state : TaskState) : Bool :=
  decide (target_state ∈ VALID_TRANSITIONS sm.current_state)

/-- `TaskStateMachine.get_valid_transitions`. -/
def TaskStateMachine.get_valid_transitions (sm : TaskStateMachine) :
    List TaskState :=
  VALID_TRANSITIONS sm.current_state

/-- `TaskStateMachine.transition_to`: returns the raised error or the new
`TaskStatus`, paired with the (possibly unchanged) machine. -/
def TaskStateMachine.transition_to (sm : TaskStateMachine)
    (target_state : TaskState) (reason : Option String) (now : Int) :
    Except InvalidStateTransitionError TaskStatus × TaskStateMachine :=
  if sm.can_transition_to target_state then
    let sm' : TaskStateMachine :=
      ⟨target_state,
        sm.history ++ [⟨sm.current_state, target_state, now, reason⟩],
        sm._created_at⟩
    (.ok ⟨target_state, none, some now⟩, sm')
  else
    (.error ⟨sm.current_state, target_state, sm.get_valid_transitions⟩, sm)

/-- `TaskStateMachine.is_terminal` property. -/
def TaskStateMachine.is_terminal (sm : TaskStateMachine) : Bool :=
  decide (sm.current_state ∈ TERMINAL_STATES)

/-- Test an `Except` for success. -/
def exceptOk {ε α : Type} : Except ε α → Bool
  | .ok _ => true
  | .error _ => false

/-! ## Claim C1 -/

/-- C1: for every current state and target state, `transition_to` succeeds
exactly when the target is in the transition table's allowed set for the
current state; when it is not allowed it raises `InvalidStateTransitionError`
and the machine (current state and history) is unchanged. -/
theorem transition_to_ok_iff_table (sm : TaskStateMachine)
    (t : TaskState) (r : Option String) (now : Int) :
    (exceptOk (sm.transition_to t r now).1 = true
        ↔ t ∈ VALID_TRANSITIONS sm.current_state)
      ∧ (t ∉ VALID_TRANSITIONS sm.current_state
        → (sm.transition_to t r now).1
            = .error ⟨sm.current_state, t, VALID_TRANSITIONS sm.current_state⟩
          ∧ (sm.transition_to t r now).2 = sm) := by
  constructor
  · unfold TaskStateMachine.transition_to TaskStateMachine.can_transition_to
    by_cases h : t ∈ VALID_TRANSITIONS sm.current_state <;>
      simp [h, exceptOk]
  · intro h
    unfold TaskStateMachine.transition_to TaskStateMachine.can_transition_to
    simp [h, TaskStateMachine.get_valid_transitions]

/-- Witness for C1 at a concrete machine: from `completed` (terminal) a
transition to `working` is refused and the machine is unchanged. -/
theorem transition_to_ok_iff_table_witness :
    exceptOk ((mkTaskStateMachine .completed 0).transition_to
        .working none 7).1 = false
      ∧ ((mkTaskStateMachine .completed 0).transition_to .working none 7).2
        = mkTaskStateMachine .completed 0 :=
  ⟨by decide,
    ((transition_to_ok_iff_table (mkTaskStateMachine .completed 0)
      .working none 7).2 (by decide)).2⟩

/-! ## Claim C4 -/

/-- C4 counterexample: the claim says `is_terminal` is true for `unknown`,
but the code's `TERMINAL_STATES` omits `unknown`, so `is_terminal` is false
on a machine in state `unknown` (even though `unknown` has an empty outgoing
transition set). -/
theorem is_terminal_unknown_false :
    (mkTaskStateMachine .unknown 0).is_terminal = false
      ∧ VALID_TRANSITIONS .unknown = [] := by
  decide

/-- C4 amended: `is_terminal` is true exactly for `completed`, `failed`,
`canceled`, `rejected` (not `unknown`); all four of those states, and also
`unknown`, have empty outgoing transition sets. -/
theorem is_terminal_iff_terminal_states (sm : TaskStateMachine) :
    (sm.is_terminal = true ↔ sm.current_state ∈ TERMINAL_STATES)
      ∧ VALID_TRANSITIONS .completed = []
      ∧ VALID_TRANSITIONS .failed = []
      ∧ VALID_TRANSITIONS .canceled = []
      ∧ VALID_TRANSITIONS .rejected = []
      ∧ VALID_TRANSITIONS .unknown = [] := by
  refine ⟨?_, by decide, by decide, by decide, by decide, by decide⟩
  unfold TaskStateMachine.is_terminal
  simp

/-! ## Task manager (`server/task_manager.py`)

`task_manager.py` passes `created_at`/`updated_at` kwargs when constructing
`TaskStatus`, but the pydantic model (`core/types.py` lines 195–208, config
`extra="ignore"` at line 34) silently drops unknown kwargs, so no `TaskStatus`
instance ever carries them, and reading an undefined attribute raises
`AttributeError`. Python exceptions arising from such interface mismatches
(`TypeError`, `AttributeError`) are modelled by `PyErr`. -/

/-- Runtime exceptions raised by interface mismatches. -/
inductive PyErr where
  /-- `TypeError: __init__() got an unexpected keyword argument` -/
  | typeError (callee : String) (kwarg : String)
  /-- `AttributeError: object has no attribute` -/
  | attributeError (obj : String) (attr : String)
deriving DecidableEq

/-- `Artifact` from `core/types.py`, reduced to the fields the task manager
builds. -/
structure Artifact where
  artifact_id : String
  name : String
  parts : List String
deriving DecidableEq

/-- `Task` from `core/types.py` as populated by `TaskManager.create_task`
(named `A2ATask` here: `Task` is taken by Lean core). Its status is the real
pydantic `TaskStatus` (`state`, `message`, `timestamp`). -/
structure A2ATask where
  id : String
  context_id : String
  status : TaskStatus
  history : List Message
  artifacts : List Artifact
deriving DecidableEq

/-- `TaskManager`'s three stores (`_tasks`, `_state_machines`, `_contexts`),
dicts modelled as insertion-ordered association lists. -/
structure TaskManager where
  _tasks : List (String × A2ATask)
  _state_machines : List (String × TaskStateMachine)
  _contexts : List (String × List Message)
deriving DecidableEq

/-- Keyword parameter names accepted by the `TaskStateMachine` dataclass
constructor: exactly its fields (`core/state_machine.py` lines 112–114). -/
def taskStateMachineInitKwargs : List String :=
  ["current_state", "history", "_created_at"]

/-- A Python call `TaskStateMachine(<kwargs>)`: a dataclass `__init__` accepts
only its field names as keywords and raises `TypeError` otherwise. -/
def callTaskStateMachine (kwargs : List String) (now : Int) :
    Except PyErr TaskStateMachine :=
  match kwargs.find? (fun k => !(taskStateMachineInitKwargs.contains k)) with
  | some k => .error (.typeError "TaskStateMachine" k)
  | none => .ok (mkTaskStateMachine .submitted now)

/-- `TaskManager.create_task` (`task_manager.py` lines 120–169). The generated
ids and the clock are supplied by the caller. The source calls
`TaskStatus(state=SUBMITTED, created_at=now, updated_at=now)`: pydantic's
`extra="ignore"` drops the two unknown kwargs, leaving `state`, a `none`
message and the default-factory timestamp. It then evaluates
`TaskStateMachine(task_id=task_id)` before storing anything. -/
def TaskManager.create_task (tm : TaskManager) (message : Message)
    (context_id : Option String) (task_id gen_context_id : String)
    (now : Int) : Except PyErr (A2ATask × TaskManager) := do
  let status : TaskStatus := ⟨.submitted, none, some now⟩
  let task : A2ATask :=
    ⟨task_id, context_id.getD gen_context_id, status, [message], []⟩
  let state_machine ← callTaskStateMachine ["task_id"] now
  let contexts :=
    match context_id with
    | some cid =>
        if tm._contexts.any (fun p => p.1 == cid) then tm._contexts
        else tm._contexts ++ [(task.context_id, [])]
    | none => tm._contexts ++ [(task.context_id, [])]
  .ok (task,
    ⟨tm._tasks ++ [(task_id, task)],
      tm._state_machines ++ [(task_id, state_machine)],
      contexts⟩)

/-! ## Claim C2 -/

/-- C2 (code bug): `TaskManager.create_task` never returns a task at all: the
call `TaskStateMachine(task_id=task_id)` passes a keyword that is not a field
of the `TaskStateMachine` dataclass, so every call raises `TypeError` before
anything is stored. The claim that it returns a `submitted` task with history
length 1 is the documented intent (`create_task`'s docstring and the class
doctest), which the code contradicts. -/
theorem create_task_always_raises (tm : TaskManager) (message : Message)
    (context_id : Option String) (task_id gen_context_id : String)
    (now : Int) :
    tm.create_task message context_id task_id gen_context_id now
      = .error (.typeError "TaskStateMachine" "task_id") := rfl

/-- The attribute names the pydantic `TaskStatus` model defines
(`core/types.py` lines 195–208). `extra="ignore"` means no instance can carry
anything else, and reading an undefined attribute raises `AttributeError`. -/
def taskStatusFields : List String := ["state", "message", "timestamp"]

/-- The read `task.status.updated_at` at `task_manager.py` line 438:
`updated_at` is not among `taskStatusFields`, so pydantic raises
`AttributeError` (the `or created_at` fallback and the age comparison behind
it are unreachable). The `.ok` arm only keeps the definition total; the
membership test is decidably false. -/
def readStatusUpdatedAt : Except PyErr Int :=
  if "updated_at" ∈ taskStatusFields then .ok 0
  else .error (.attributeError "TaskStatus" "updated_at")

/-- The collection loop of `cleanup_completed` (`task_manager.py` lines
430–440): for each task whose state is in the removal tuple (`completed`,
`failed`, `canceled` — `rejected` is absent), read the status timestamps and
collect the id when the age exceeds `max_age_seconds`. The timestamp read
raises on the first such task. -/
def cleanupCollect (now max_age_seconds : Int) :
    List (String × A2ATask) → Except PyErr (List String)
  | [] => .ok []
  | (task_id, task) :: rest =>
    if task.status.state ∈ ([.completed, .failed, .canceled] : List TaskState)
    then do
      let updated_at ← readStatusUpdatedAt
      let ids ← cleanupCollect now max_age_seconds rest
      if max_age_seconds < now - updated_at then .ok (task_id :: ids)
      else .ok ids
    else cleanupCollect now max_age_seconds rest

/-- `TaskManager.cleanup_completed` (`task_manager.py` lines 419–446): collect
the ids of removable tasks (propagating the exception the age read raises),
then delete each id from `_tasks` and `_state_machines` and return the number
collected. -/
def TaskManager.cleanup_completed (tm : TaskManager) (now : Int)
    (max_age_seconds : Int) : Except PyErr (Nat × TaskManager) := do
  let to_remove ← cleanupCollect now max_age_seconds tm._tasks
  let tasks' := to_remove.foldl
    (fun ts tid => ts.filter (fun p => decide (p.1 ≠ tid))) tm._tasks
  let sms' := to_remove.foldl
    (fun ss tid => ss.filter (fun p => decide (p.1 ≠ tid))) tm._state_machines
  .ok (to_remove.length, ⟨tasks', sms', tm._contexts⟩)

/-- In an association list with duplicate-free keys, two members with the same
key are the same pair. -/
theorem assoc_mem_eq_of_key {β : Type} {l : List (String × β)}
    (h : (l.map Prod.fst).Nodup) {p q : String × β}
    (hp : p ∈ l) (hq : q ∈ l) (hk : p.1 = q.1) : p = q := by
  induction l with
  | nil => cases hp
  | cons a rest ih =>
      simp only [List.map_cons, List.nodup_cons] at h
      rcases List.mem_cons.mp hp with hp1 | hp1 <;>
        rcases List.mem_cons.mp hq with hq1 | hq1
      · rw [hp1, hq1]
      · refine absurd (List.mem_map_of_mem Prod.fst hq1) ?_
        rw [← hk, hp1] at *
        exact fun hx => h.1 hx
      · refine absurd (List.mem_map_of_mem Prod.fst hp1) ?_
        rw [hk, hq1] at *
        exact fun hx => h.1 hx
      · exact ih h.2 hp1 hq1

/-! ## Claim C3 -/

/-- The collection loop raises `AttributeError` as soon as any task is in the
removal tuple, and otherwise collects nothing. -/
theorem cleanupCollect_crashes (now max_age_seconds : Int)
    (ts : List (String × A2ATask)) :
    cleanupCollect now max_age_seconds ts
      = if ts.any (fun p => decide (p.2.status.state
            ∈ ([.completed, .failed, .canceled] : List TaskState)))
        then .error (.attributeError "TaskStatus" "updated_at")
        else .ok [] := by
  induction ts with
  | nil => rfl
  | cons p rest ih =>
      obtain ⟨tid, t⟩ := p
      by_cases hst : t.status.state
          ∈ ([.completed, .failed, .canceled] : List TaskState)
      · rw [if_pos (by
          simp only [List.any_cons, decide_eq_true hst, Bool.true_or])]
        simp only [cleanupCollect, if_pos hst]
        rfl
      · have hany : (((tid, t) :: rest).any (fun p =>
            decide (p.2.status.state
              ∈ ([.completed, .failed, .canceled] : List TaskState))))
            = rest.any (fun p => decide (p.2.status.state
              ∈ ([.completed, .failed, .canceled] : List TaskState))) := by
          simp only [List.any_cons, decide_eq_false hst, Bool.false_or]
        rw [hany]
        simp only [cleanupCollect, if_neg hst]
        exact ih

/-- A store holding one `completed` task, its status shaped as the pydantic
model actually stores it. -/
def completedStore : TaskManager :=
  ⟨[("t0", ⟨"t0", "c0", ⟨.completed, none, some 0⟩, [], []⟩)],
   [("t0", mkTaskStateMachine .submitted 0)], []⟩

/-- A store holding one `rejected` (terminal) task: `rejected` is absent from
the removal tuple, so the sweep never examines it. -/
def rejectedStore : TaskManager :=
  ⟨[("t1", ⟨"t1", "c1", ⟨.rejected, none, some 0⟩, [], []⟩)],
   [("t1", mkTaskStateMachine .submitted 0)], []⟩

/-- C3 (code bug): `cleanup_completed` can never remove a task or return a
positive count. On any store containing a `completed`, `failed` or `canceled`
task, the age read `task.status.updated_at` raises `AttributeError`, because
`TaskStatus` (`taskStatusFields`, pydantic `extra="ignore"`) has no such
attribute; on every other store the sweep removes nothing and returns 0 — in
particular an aged terminal `rejected` task always survives, since the removal
tuple omits `rejected`. Both outcomes contradict the claim, which says
terminal tasks are removed and counted. -/
theorem cleanup_completed_crashes (tm : TaskManager)
    (now max_age_seconds : Int) :
    (tm.cleanup_completed now max_age_seconds
        = if tm._tasks.any (fun p => decide (p.2.status.state
              ∈ ([.completed, .failed, .canceled] : List TaskState)))
          then .error (.attributeError "TaskStatus" "updated_at")
          else .ok (0, tm))
      ∧ completedStore.cleanup_completed 100 0
        = .error (.attributeError "TaskStatus" "updated_at")
      ∧ rejectedStore.cleanup_completed 100 0 = .ok (0, rejectedStore) := by
  refine ⟨?_, rfl, rfl⟩
  unfold TaskManager.cleanup_completed
  rw [cleanupCollect_crashes]
  by_cases h : (tm._tasks.any (fun p => decide (p.2.status.state
      ∈ ([.completed, .failed, .canceled] : List TaskState)))) = true
  · rw [if_pos h, if_pos h]
    rfl
  · rw [if_neg h, if_neg h]
    rfl

/-! ## JSON-RPC handler (`server/handlers/jsonrpc_handler.py`) -/

/-- `AgentSkill` from `core/types.py` (the fields routing inspects). -/
structure AgentSkill where
  id : String
  tags : List String
deriving DecidableEq

/-- `AgentEntry` from `orchestration/catalog.py`; `skills` is the adapter's
advertised skill list (`entry.adapter.skills`). -/
structure AgentEntry where
  name : String
  skills : List AgentSkill
  healthy : Bool
deriving DecidableEq

/-- The set `{s.id for s in agent.skills}` (list with membership
semantics). -/
def AgentEntry.skillIds (a : AgentEntry) : List String :=
  a.skills.map (fun s => s.id)

/-- `AgentEntry.skill_tags`: the union of all skills' tags. -/
def AgentEntry.skill_tags (a : AgentEntry) : List String :=
  a.skills.foldl (fun tags s => tags ++ s.tags) []

/-- Routing context: the `skills`/`tags` lists read out of the `context`
dict. -/
structure RoutingContext where
  skills : List String
  tags : List String
deriving DecidableEq

/-- The additive score `SkillMatchRouter.select` computes per agent: +10 per
required skill found in the agent's skill-id set, +1 per required tag found in
the agent's tag set (`router.py` lines 123–136). -/
def skillScore (a : AgentEntry) (required_skills required_tags : List String) :
    Int :=
  let s1 := required_skills.foldl
    (fun score sk => if sk ∈ a.skillIds then score + 10 else score) 0
  required_tags.foldl
    (fun score t => if t ∈ a.skill_tags then score + 1 else score) s1

/-- Insert into a score-descending list, before the first strictly-smaller
score. -/
def insertByScore (x : Int × AgentEntry) :
    List (Int × AgentEntry) → List (Int × AgentEntry)
  | [] => [x]
  | y :: ys => if y.1 ≤ x.1 then x :: y :: ys else y :: insertByScore x ys

/-- `scored.sort(key=lambda x: x[0], reverse=True)`: Python's sort is stable,
and a stable insertion sort (earlier elements inserted before equal-scored
later ones) produces the identical descending ordering. -/
def sortByScoreDesc : List (Int × AgentEntry) → List (Int × AgentEntry)
  | [] => []
  | x :: xs => insertByScore x (sortByScoreDesc xs)

/-- `SkillMatchRouter.select` (`router.py` lines 103–147). -/
def SkillMatchRouter.select (agents : List AgentEntry)
    (context : Option RoutingContext) : Option AgentEntry :=
  match agents with
  | [] => none
  | a0 :: _ =>
    match context with
    | none => some a0
    | some ctx =>
      let required_skills := ctx.skills
      let required_tags := ctx.tags
      if required_skills.isEmpty && required_tags.isEmpty then some a0
      else
        let scored := agents.filterMap (fun a =>
          let score := skillScore a required_skills required_tags
          if 0 < score then some (score, a) else none)
        match sortByScoreDesc scored with
        | [] => some a0
        | p :: _ => some p.2

/-- First element of the list attaining the maximal score (spec's tie-break:
"ties broken by input order"). -/
def firstBestBy (f : AgentEntry → Int) : List AgentEntry → Option AgentEntry
  | [] => none
  | a :: as =>
    match firstBestBy f as with
    | none => some a
    | some m => if f a < f m then some m else some a

/-- `SkillMatchRouter.select` as the spec words it: score every candidate;
the highest aggregate wins with ties broken by input order; when no candidate
scores above zero, fall back to the first candidate. -/
def skillMatchSpec (agents : List AgentEntry)
    (context : Option RoutingContext) : Option AgentEntry :=
  match agents with
  | [] => none
  | a0 :: _ =>
    let sk := (context.map (fun c => c.skills)).getD []
    let tg := (context.map (fun c => c.tags)).getD []
    if agents.any (fun a => decide (0 < skillScore a sk tg)) then
      firstBestBy (fun a => skillScore a sk tg) agents
    else some a0

/-- First element of a score-pair list attaining the maximal score. -/
def firstMaxPair : List (Int × AgentEntry) → Option (Int × AgentEntry)
  | [] => none
  | p :: ps =>
    match firstMaxPair ps with
    | none => some p
    | some q => if p.1 < q.1 then some q else some p

theorem length_insertByScore (x : Int × AgentEntry)
    (l : List (Int × AgentEntry)) :
    (insertByScore x l).length = l.length + 1 := by
  induction l with
  | nil => rfl
  | cons y ys ih =>
      unfold insertByScore
      by_cases h : y.1 ≤ x.1 <;> simp [h, ih]

theorem sortByScoreDesc_eq_nil {l : List (Int × AgentEntry)} :
    sortByScoreDesc l = [] ↔ l = [] := by
  cases l with
  | nil => simp [sortByScoreDesc]
  | cons x xs =>
      simp only [sortByScoreDesc]
      constructor
      · intro h
        have := length_insertByScore x (sortByScoreDesc xs)
        rw [h] at this
        cases this
      · intro h
        cases h

/-- The head of the stable descending sort is the first maximal-score
element. -/
theorem head_sortByScoreDesc (l : List (Int × AgentEntry)) :
    (sortByScoreDesc l).head? = firstMaxPair l := by
  induction l with
  | nil => rfl
  | cons x xs ih =>
      simp only [sortByScoreDesc, firstMaxPair]
      cases hs : sortByScoreDesc xs with
      | nil =>
          rw [sortByScoreDesc_eq_nil.mp hs] at *
          simp [insertByScore, firstMaxPair]
      | cons y ys =>
          rw [hs] at ih
          simp only [List.head?] at ih
          rw [← ih]
          simp only [insertByScore]
          by_cases h : y.1 ≤ x.1
          · have h' : ¬ x.1 < y.1 := not_lt.mpr h
            simp [h, h']
          · have h' : x.1 < y.1 := not_le.mp h
            simp [h, h']

/-- The scored list built by the selection loop: score each agent, keep the
positive ones, in input order. -/
def scoredOf (f : AgentEntry → Int) (l : List AgentEntry) :
    List (Int × AgentEntry) :=
  l.filterMap (fun a => if 0 < f a then some (f a, a) else none)

theorem firstBestBy_mem {f : AgentEntry → Int} {l : List AgentEntry}
    {m : AgentEntry} (h : firstBestBy f l = some m) : m ∈ l := by
  induction l with
  | nil => cases h
  | cons a as ih =>
      unfold firstBestBy at h
      split at h
      · cases h
        exact List.mem_cons_self _ _
      · rename_i m' hfb
        split at h
        · cases h
          exact List.mem_cons_of_mem _ (ih hfb)
        · cases h
          exact List.mem_cons_self _ _

theorem scoredOf_eq_nil {f : AgentEntry → Int} {l : List AgentEntry}
    (h : l.any (fun a => decide (0 < f a)) = false) : scoredOf f l = [] := by
  induction l with
  | nil => rfl
  | cons a as ih =>
      simp only [List.any_cons, Bool.or_eq_false_iff] at h
      simp only [scoredOf, List.filterMap_cons]
      rw [if_neg (by simpa using h.1)]
      exact ih h.2

/-- Bridge: when some agent scores positively, the first maximal element of
the positive-scored list is the first maximal-scoring agent overall. -/
theorem firstMaxPair_scoredOf {f : AgentEntry → Int} {l : List AgentEntry}
    (h : l.any (fun a => decide (0 < f a)) = true) :
    ∃ m, firstBestBy f l = some m ∧ 0 < f m
      ∧ firstMaxPair (scoredOf f l) = some (f m, m) := by
  induction l with
  | nil => cases h
  | cons a as ih =>
      by_cases hpa : 0 < f a
      · have hsc : scoredOf f (a :: as) = (f a, a) :: scoredOf f as := by
          simp [scoredOf, hpa]
        by_cases has : as.any (fun a => decide (0 < f a)) = true
        · obtain ⟨m, hm1, hm2, hm3⟩ := ih has
          by_cases hlt : f a < f m
          · exact ⟨m, by simp [firstBestBy, hm1, hlt], hm2,
              by simp [hsc, firstMaxPair, hm3, hlt]⟩
          · exact ⟨a, by simp [firstBestBy, hm1, hlt], hpa,
              by simp [hsc, firstMaxPair, hm3, hlt]⟩
        · have hnil : scoredOf f as = [] := by
            refine scoredOf_eq_nil ?_
            exact Bool.not_eq_true _ ▸ eq_false_of_ne_true has
          refine ⟨a, ?_, hpa, by simp [hsc, hnil, firstMaxPair]⟩
          cases hfb : firstBestBy f as with
          | none => simp [firstBestBy, hfb]
          | some m =>
              have hmem := firstBestBy_mem hfb
              have hmneg : ¬ 0 < f m := by
                intro hc
                exact has (List.any_eq_true.mpr ⟨m, hmem, by simpa using hc⟩)
              have hlt : ¬ f a < f m := fun hc => hmneg (lt_trans hpa hc)
              simp [firstBestBy, hfb, hlt]
      · have has : as.any (fun a => decide (0 < f a)) = true := by
          simpa [hpa] using h
        obtain ⟨m, hm1, hm2, hm3⟩ := ih has
        have hsc : scoredOf f (a :: as) = scoredOf f as := by
          simp [scoredOf, hpa]
        have hlt : f a < f m := lt_of_le_of_lt (not_lt.mp hpa) hm2
        exact ⟨m, by simp [firstBestBy, hm1, hlt], hm2, by rw [hsc, hm3]⟩

/-- `SkillMatchRouter.select` agrees with the spec's wording on every input:
highest additive score wins, ties broken by input order, and with no positive
score the first candidate is returned. -/
theorem skillMatch_select_eq_spec (agents : List AgentEntry)
    (context : Option RoutingContext) :
    SkillMatchRouter.select agents context = skillMatchSpec agents context := by
  cases agents with
  | nil => rfl
  | cons a0 rest =>
      cases context with
      | none =>
          have hz : ∀ a : AgentEntry, skillScore a [] [] = 0 := fun _ => rfl
          simp [SkillMatchRouter.select, skillMatchSpec, hz]
      | some ctx =>
          by_cases hemp : (ctx.skills.isEmpty && ctx.tags.isEmpty) = true
          · rcases Bool.and_eq_true_iff.mp hemp with ⟨h1, h2⟩
            rw [List.isEmpty_iff] at h1 h2
            have hz : ∀ a : AgentEntry, skillScore a [] [] = 0 :=
              fun _ => rfl
            simp [SkillMatchRouter.select, skillMatchSpec, hemp, h1, h2, hz]
          · by_cases hany : (a0 :: rest).any
                (fun a => decide (0 < skillScore a ctx.skills ctx.tags)) = true
            · obtain ⟨m, hm1, hm2, hm3⟩ := firstMaxPair_scoredOf hany
              have hhead := head_sortByScoreDesc
                (scoredOf (fun a => skillScore a ctx.skills ctx.tags)
                  (a0 :: rest))
              rw [hm3] at hhead
              simp only [SkillMatchRouter.select, skillMatchSpec, hemp,
                Bool.false_eq_true, if_false, Option.map_some',
                Option.getD_some, hany, if_true, hm1]
              rw [show (List.filterMap (fun a =>
                    if 0 < skillScore a ctx.skills ctx.tags
                    then some (skillScore a ctx.skills ctx.tags, a) else none)
                    (a0 :: rest))
                  = scoredOf (fun a => skillScore a ctx.skills ctx.tags)
                      (a0 :: rest) from rfl]
              cases hsort : sortByScoreDesc
                  (scoredOf (fun a => skillScore a ctx.skills ctx.tags)
                    (a0 :: rest)) with
              | nil => rw [hsort] at hhead; cases hhead
              | cons p ps =>
                  rw [hsort] at hhead
                  simp only [List.head?] at hhead
                  cases hhead
                  rfl
            · have hnil := scoredOf_eq_nil (eq_false_of_ne_true hany)
              simp only [SkillMatchRouter.select, skillMatchSpec, hemp,
                Bool.false_eq_true, if_false, Option.map_some',
                Option.getD_some, hany]
              rw [show (List.filterMap (fun a =>
                    if 0 < skillScore a ctx.skills ctx.tags
                    then some (skillScore a ctx.skills ctx.tags, a) else none)
                    (a0 :: rest))
                  = scoredOf (fun a => skillScore a ctx.skills ctx.tags)
                      (a0 :: rest) from rfl]
              rw [hnil]
              rfl

/-- Example candidates from the spec: C1 has skill "x" with tag "a"; C2 has
tags "a" and "b". -/
def exampleCandidate1 : AgentEntry := ⟨"C1", [⟨"x", ["a"]⟩], true⟩

def exampleCandidate2 : AgentEntry := ⟨"C2", [⟨"y", ["a", "b"]⟩], true⟩

/-! ## Claim C6 -/

/-- C6: `SkillMatchRouter.select` scores candidates additively (10 per exact
skill-id match, 1 per tag match), returns the highest-scoring candidate with
ties broken by input order, falls back to the first candidate when no score is
positive (this is `skillMatchSpec`, the spec's wording, proved equal on every
input); and on the spec's example, a request with skills `["x"]` selects C1
over C2. -/
theorem skillMatch_select_correct :
    (∀ (agents : List AgentEntry) (context : Option RoutingContext),
        SkillMatchRouter.select agents context = skillMatchSpec agents context)
      ∧ SkillMatchRouter.select [exampleCandidate1, exampleCandidate2]
          (some ⟨["x"], []⟩) = some exampleCandidate1
      ∧ skillScore exampleCandidate1 ["x"] [] = 10
      ∧ skillScore exampleCandidate2 ["x"] [] = 0 :=
  ⟨skillMatch_select_eq_spec, by decide, by decide, by decide⟩

/-! ## Round-robin router (`router.py` lines 55–75) -/

/-- `RoundRobinRouter.select`: the router's `_index` counter is passed and
returned explicitly. -/
def RoundRobinRouter.select (idx : Nat) (agents : List AgentEntry) :
    Option AgentEntry × Nat :=
  match agents with
  | [] => (none, idx)
  | _ :: _ => (agents[idx % agents.length]?, idx + 1)

/-- Iterate `RoundRobinRouter.select` `n` times over a fixed candidate list,
collecting the picks. -/
def runRoundRobin : Nat → Nat → List AgentEntry → List (Option AgentEntry)
  | 0, _, _ => []
  | n + 1, idx, agents =>
    let r := RoundRobinRouter.select idx agents
    r.1 :: runRoundRobin n r.2 agents

/-- Three distinct example candidates for the round-robin run. -/
def rrCandidates : List AgentEntry :=
  [⟨"a1", [], true⟩, ⟨"a2", [], true⟩, ⟨"a3", [], true⟩]

/-! ## Claim C8 -/

/-- C8: over a non-empty candidate list, `select` returns the candidate at
position `counter % length` and increments the counter by one; consequently 6
consecutive selections over the same 3 candidates visit each candidate exactly
twice, in list order. -/
theorem roundRobin_select_correct :
    (∀ (idx : Nat) (a : AgentEntry) (rest : List AgentEntry),
        RoundRobinRouter.select idx (a :: rest)
          = ((a :: rest)[idx % (a :: rest).length]?, idx + 1))
      ∧ runRoundRobin 6 0 rrCandidates
        = [some ⟨"a1", [], true⟩, some ⟨"a2", [], true⟩, some ⟨"a3", [], true⟩,
           some ⟨"a1", [], true⟩, some ⟨"a2", [], true⟩, some ⟨"a3", [], true⟩]
      ∧ (runRoundRobin 6 0 rrCandidates).count (some ⟨"a1", [], true⟩) = 2
      ∧ (runRoundRobin 6 0 rrCandidates).count (some ⟨"a2", [], true⟩) = 2
      ∧ (runRoundRobin 6 0 rrCandidates).count (some ⟨"a3", [], true⟩) = 2 :=
  ⟨fun _ _ _ => rfl, by decide, by decide, by decide, by decide⟩

/-! ## Weighted router (`router.py` lines 150–202) -/

/-- `WeightedRouter`'s internal state: `_weights` and `_counters` dicts. -/
structure WeightedState where
  _weights : List (String × Int)
  _counters : List (String × Int)
deriving DecidableEq

/-- The ratio `count / weight` computed per agent (`router.py` line 191),
`none` standing for Python's `float("inf")` when the weight is not
positive. Counts and weights are exact here; CPython computes the same
comparisons on floats, which are correctly rounded from these rationals. -/
def weightedRatio (st : WeightedState) (name : String) : Option ℚ :=
  let weight := (st._weights.lookup name).getD 1
  let count := (st._counters.lookup name).getD 0
  if 0 < weight then some (Rat.divInt count weight) else none

/-- For a positive weight the ratio is literally `count / weight` in ℚ
(`Rat.divInt` is used in `weightedRatio` because it evaluates by kernel
reduction). -/
theorem weightedRatio_eq_div (st : WeightedState) (name : String)
    (h : 0 < (st._weights.lookup name).getD 1) :
    weightedRatio st name
      = some ((((st._counters.lookup name).getD 0 : Int) : ℚ)
          / (((st._weights.lookup name).getD 1 : Int) : ℚ)) := by
  unfold weightedRatio
  rw [if_pos h, Rat.divInt_eq_div]

/-- Strict comparison on ratios, `none` = infinity. -/
def ratioLtB : Option ℚ → Option ℚ → Bool
  | some x, some y => decide (x < y)
  | some _, none => true
  | none, _ => false

/-- Non-strict comparison on ratios. -/
def ratioLeB (x y : Option ℚ) : Bool :=
  !(ratioLtB y x)

/-- One iteration of the selection loop (`router.py` lines 183–195). -/
def weightedStep (st : WeightedState)
    (acc : Option AgentEntry × Option ℚ) (agent : AgentEntry) :
    Option AgentEntry × Option ℚ :=
  if !agent.healthy then acc
  else
    let r := weightedRatio st agent.name
    if ratioLtB r acc.2 then (some agent, r) else acc

/-- Python dict assignment `d[k] = v`: update in place if present, else
append. -/
def setAssoc (l : List (String × Int)) (k : String) (v : Int) :
    List (String × Int) :=
  if l.any (fun p => p.1 == k) then
    l.map (fun p => if p.1 == k then (k, v) else p)
  else l ++ [(k, v)]

/-- `WeightedRouter.select` (`router.py` lines 171–202). -/
def WeightedRouter.select (st : WeightedState) (agents : List AgentEntry) :
    Option AgentEntry × WeightedState :=
  match agents with
  | [] => (none, st)
  | a0 :: _ =>
    let best := agents.foldl (weightedStep st) (none, none)
    match best.1 with
    | some b =>
        (some b,
          ⟨st._weights,
            setAssoc st._counters b.name
              ((st._counters.lookup b.name).getD 0 + 1)⟩)
    | none => (some a0, st)

theorem ratioLeB_refl (x : Option ℚ) : ratioLeB x x = true := by
  cases x <;> simp [ratioLeB, ratioLtB]

theorem ratioLeB_trans {x y z : Option ℚ} (h1 : ratioLeB x y = true)
    (h2 : ratioLeB y z = true) : ratioLeB x z = true := by
  cases x <;> cases y <;> cases z <;>
    simp_all [ratioLeB, ratioLtB]
  linarith

theorem ratioLeB_of_ltB {x y : Option ℚ} (h : ratioLtB x y = true) :
    ratioLeB x y = true := by
  cases x <;> cases y <;> simp_all [ratioLeB, ratioLtB]
  linarith

theorem ratioLeB_of_not_ltB {x y : Option ℚ} (h : ratioLtB x y = false) :
    ratioLeB y x = true := by
  cases x <;> cases y <;> simp_all [ratioLeB, ratioLtB]

theorem ratioLtB_isSome {x y : Option ℚ} (h : ratioLtB x y = true) :
    x ≠ none := by
  cases x
  · cases h
  · exact fun hc => Option.noConfusion hc

/-- Invariant of the weighted selection loop: the accumulator tracks a healthy
agent with the minimal finite ratio seen so far. -/
theorem weightedFold_spec (st : WeightedState) (l : List AgentEntry) :
    ∀ (b : Option AgentEntry) (r : Option ℚ),
    (b = none → r = none) →
    (∀ x, b = some x → x.healthy = true ∧ r = weightedRatio st x.name) →
    (∀ x, (l.foldl (weightedStep st) (b, r)).1 = some x
        → (b = some x ∨ x ∈ l) ∧ x.healthy = true
          ∧ (l.foldl (weightedStep st) (b, r)).2 = weightedRatio st x.name)
      ∧ ((l.foldl (weightedStep st) (b, r)).1 = none → b = none)
      ∧ ratioLeB (l.foldl (weightedStep st) (b, r)).2 r = true
      ∧ (∀ x ∈ l, x.healthy = true
          → ratioLeB (l.foldl (weightedStep st) (b, r)).2
              (weightedRatio st x.name) = true)
      ∧ ((l.foldl (weightedStep st) (b, r)).1 = none
          → ∀ x ∈ l, x.healthy = true → weightedRatio st x.name = none) := by
  induction l with
  | nil =>
      intro b r hbn hbs
      refine ⟨fun x hx => ⟨Or.inl hx, (hbs x hx).1, (hbs x hx).2⟩,
        fun h => ?_, ratioLeB_refl r, fun x hx => absurd hx (by simp),
        fun _ x hx => absurd hx (by simp)⟩
      simpa using h
  | cons a l ih =>
      intro b r hbn hbs
      rw [List.foldl_cons]
      by_cases ha : a.healthy = true
      · by_cases hlt : ratioLtB (weightedRatio st a.name) r = true
        · have hstep : weightedStep st (b, r) a
              = (some a, weightedRatio st a.name) := by
            simp [weightedStep, ha, hlt]
          rw [hstep]
          obtain ⟨i1, i2, i3, i4, i5⟩ := ih (some a) (weightedRatio st a.name)
            (fun h => Option.noConfusion h)
            (fun x hx => by cases hx; exact ⟨ha, rfl⟩)
          refine ⟨fun x hx => ?_, fun h => absurd (i2 h) (by simp),
            ratioLeB_trans i3 (ratioLeB_of_ltB hlt), fun x hx hh => ?_,
            fun h => absurd (i2 h) (by simp)⟩
          · obtain ⟨hd, hh, hr⟩ := i1 x hx
            refine ⟨?_, hh, hr⟩
            rcases hd with hd | hd
            · cases hd
              exact Or.inr (List.mem_cons_self _ _)
            · exact Or.inr (List.mem_cons_of_mem _ hd)
          · rcases List.mem_cons.mp hx with hx1 | hx1
            · rw [hx1]
              exact i3
            · exact i4 x hx1 hh
        · have hstep : weightedStep st (b, r) a = (b, r) := by
            simp [weightedStep, ha, hlt]
          rw [hstep]
          obtain ⟨i1, i2, i3, i4, i5⟩ := ih b r hbn hbs
          have hra : ratioLeB r (weightedRatio st a.name) = true :=
            ratioLeB_of_not_ltB (eq_false_of_ne_true hlt)
          refine ⟨fun x hx => ?_, i2, i3, fun x hx hh => ?_, fun h x hx hh => ?_⟩
          · obtain ⟨hd, hh, hr⟩ := i1 x hx
            refine ⟨?_, hh, hr⟩
            rcases hd with hd | hd
            · exact Or.inl hd
            · exact Or.inr (List.mem_cons_of_mem _ hd)
          · rcases List.mem_cons.mp hx with hx1 | hx1
            · rw [hx1]
              exact ratioLeB_trans i3 hra
            · exact i4 x hx1 hh
          · rcases List.mem_cons.mp hx with hx1 | hx1
            · rw [hx1]
              have hb := i2 h
              rw [hbn hb] at hlt
              cases hrat : weightedRatio st a.name with
              | none => rfl
              | some q => rw [hrat] at hlt; exact absurd rfl hlt
            · exact i5 h x hx1 hh
      · have hstep : weightedStep st (b, r) a = (b, r) := by
          simp [weightedStep, ha]
        rw [hstep]
        obtain ⟨i1, i2, i3, i4, i5⟩ := ih b r hbn hbs
        refine ⟨fun x hx => ?_, i2, i3, fun x hx hh => ?_, fun h x hx hh => ?_⟩
        · obtain ⟨hd, hh, hr⟩ := i1 x hx
          refine ⟨?_, hh, hr⟩
          rcases hd with hd | hd
          · exact Or.inl hd
          · exact Or.inr (List.mem_cons_of_mem _ hd)
        · rcases List.mem_cons.mp hx with hx1 | hx1
          · rw [hx1] at hh
            exact absurd hh ha
          · exact i4 x hx1 hh
        · rcases List.mem_cons.mp hx with hx1 | hx1
          · rw [hx1] at hh
            exact absurd hh ha
          · exact i5 h x hx1 hh

/-- Iterate `WeightedRouter.select` `n` times, threading the router state and
collecting the picks. -/
def runWeighted :
    Nat → WeightedState → List AgentEntry → List (Option AgentEntry)
  | 0, _, _ => []
  | n + 1, st, agents =>
    let r := WeightedRouter.select st agents
    r.1 :: runWeighted n r.2 agents

/-- Example agent A (weight left at the default 1). -/
def exampleWeightedA : AgentEntry := ⟨"A", [], true⟩

/-- Example agent B (weight 3). -/
def exampleWeightedB : AgentEntry := ⟨"B", [], true⟩

/-! ## Claim C7 -/

/-- C7: whenever some healthy candidate has a positive weight,
`WeightedRouter.select` picks a healthy candidate minimizing
calls-issued ÷ weight (default weight 1), and the new state increments only
the chosen candidate's counter; with candidates A (weight 1) and B (weight 3)
four consecutive selections pick A once and B three times. -/
theorem weighted_select_correct (st : WeightedState) (agents : List AgentEntry)
    (h : agents.any (fun a =>
        a.healthy && decide (0 < (st._weights.lookup a.name).getD 1)) = true) :
    (∃ chosen, (WeightedRouter.select st agents).1 = some chosen
        ∧ chosen ∈ agents ∧ chosen.healthy = true
        ∧ (∀ b ∈ agents, b.healthy = true
            → ratioLeB (weightedRatio st chosen.name)
                (weightedRatio st b.name) = true)
        ∧ (WeightedRouter.select st agents).2
          = ⟨st._weights,
              setAssoc st._counters chosen.name
                ((st._counters.lookup chosen.name).getD 0 + 1)⟩)
      ∧ runWeighted 4 ⟨[("B", 3)], []⟩ [exampleWeightedA, exampleWeightedB]
        = [some exampleWeightedA, some exampleWeightedB,
           some exampleWeightedB, some exampleWeightedB] := by
  refine ⟨?_, by decide⟩
  obtain ⟨w, hwmem, hw⟩ := List.any_eq_true.mp h
  rw [Bool.and_eq_true] at hw
  obtain ⟨hwh, hwpos⟩ := hw
  rw [decide_eq_true_eq] at hwpos
  have hwrat : weightedRatio st w.name ≠ none := by
    unfold weightedRatio
    rw [if_pos hwpos]
    exact fun hc => Option.noConfusion hc
  cases agents with
  | nil => cases hwmem
  | cons a0 rest =>
      obtain ⟨i1, i2, i3, i4, i5⟩ :=
        weightedFold_spec st (a0 :: rest) none none (fun _ => rfl)
          (fun x hx => Option.noConfusion hx)
      cases hfold : ((a0 :: rest).foldl (weightedStep st) (none, none)).1 with
      | none => exact absurd (i5 hfold w hwmem hwh) hwrat
      | some chosen =>
          obtain ⟨hd, hch, hcr⟩ := i1 chosen hfold
          have hmem : chosen ∈ a0 :: rest := by
            rcases hd with hd | hd
            · cases hd
            · exact hd
          refine ⟨chosen, ?_, hmem, hch, ?_, ?_⟩
          · simp only [WeightedRouter.select, hfold]
          · intro b hb hbh
            rw [← hcr]
            exact i4 b hb hbh
          · simp only [WeightedRouter.select, hfold]

/-- Witness for C7 at the spec's example: A (default weight 1) and B
(weight 3), starting from fresh counters. -/
theorem weighted_select_correct_witness :
    (∃ chosen,
        (WeightedRouter.select ⟨[("B", 3)], []⟩
            [exampleWeightedA, exampleWeightedB]).1 = some chosen
        ∧ chosen ∈ [exampleWeightedA, exampleWeightedB]
        ∧ chosen.healthy = true
        ∧ (∀ b ∈ [exampleWeightedA, exampleWeightedB], b.healthy = true
            → ratioLeB (weightedRatio ⟨[("B", 3)], []⟩ chosen.name)
                (weightedRatio ⟨[("B", 3)], []⟩ b.name) = true)
        ∧ (WeightedRouter.select ⟨[("B", 3)], []⟩
            [exampleWeightedA, exampleWeightedB]).2
          = ⟨[("B", 3)],
              setAssoc [] chosen.name
                (((([] : List (String × Int))).lookup chosen.name).getD 0
                  + 1)⟩)
      ∧ runWeighted 4 ⟨[("B", 3)], []⟩ [exampleWeightedA, exampleWeightedB]
        = [some exampleWeightedA, some exampleWeightedB,
           some exampleWeightedB, some exampleWeightedB] :=
  weighted_select_correct ⟨[("B", 3)], []⟩
    [exampleWeightedA, exampleWeightedB] (by decide)

/-! ## Agent catalog (`orchestration/catalog.py`) -/

/-- `AgentCatalog`'s stores: `_agents`, `_skill_index`, `_tag_index`
(dicts as insertion-ordered association lists, name-sets as lists with
membership semantics). -/
structure AgentCatalog where
  _agents : List (String × AgentEntry)
  _skill_index : List (String × List String)
  _tag_index : List (String × List String)
deriving DecidableEq

/-- `if key in index: index[key].discard(member)`: remove `member` from the
set stored at `key`, a no-op when `key` is absent. -/
def discardName (idx : List (String × List String)) (key member : String) :
    List (String × List String) :=
  idx.map (fun p =>
    if p.1 = key then (p.1, p.2.filter (fun n => decide (n ≠ member))) else p)

/-- `AgentCatalog.unregister` (`catalog.py` lines 128–152): look up the entry,
scrub its skills' ids from the skill index and their tags from the tag index,
then delete the agent. -/
def AgentCatalog.unregister (c : AgentCatalog) (name : String) :
    Bool × AgentCatalog :=
  match c._agents.lookup name with
  | none => (false, c)
  | some entry =>
    let scrubbed := entry.skills.foldl
      (fun (p : List (String × List String) × List (String × List String)) sk =>
        (discardName p.1 sk.id name,
          sk.tags.foldl (fun ti t => discardName ti t name) p.2))
      (c._skill_index, c._tag_index)
    (true,
      ⟨c._agents.filter (fun p => decide (p.1 ≠ name)),
        scrubbed.1, scrubbed.2⟩)

/-- `AgentCatalog.list_agents`. -/
def AgentCatalog.list_agents (c : AgentCatalog) (healthy_only : Bool) :
    List AgentEntry :=
  let agents := c._agents.map (fun p => p.2)
  if healthy_only then agents.filter (fun a => a.healthy) else agents

/-- `AgentCatalog.find_by_skill`: the indexed names that are still registered,
resolved to entries. -/
def AgentCatalog.find_by_skill (c : AgentCatalog) (skill_id : String) :
    List AgentEntry :=
  ((c._skill_index.lookup skill_id).getD []).filterMap
    (fun n => c._agents.lookup n)

/-- `AgentCatalog.find_by_tag`. -/
def AgentCatalog.find_by_tag (c : AgentCatalog) (tag : String) :
    List AgentEntry :=
  ((c._tag_index.lookup tag).getD []).filterMap (fun n => c._agents.lookup n)

/-- `AgentCatalog.find_by_tags` (`catalog.py` lines 204–240): empty tag list
returns every registered agent; otherwise intersect (`match_all`) or union the
indexed name sets and resolve the surviving registered names. -/
def AgentCatalog.find_by_tags (c : AgentCatalog) (tags : List String)
    (match_all : Bool) : List AgentEntry :=
  if tags.isEmpty then c.list_agents false
  else
    let names :=
      if match_all then
        match tags with
        | [] => []
        | t0 :: rest => rest.foldl
            (fun acc t => acc.filter
              (fun n => decide (n ∈ (c._tag_index.lookup t).getD [])))
            ((c._tag_index.lookup t0).getD [])
      else
        tags.foldl
          (fun acc t => acc
            ++ ((c._tag_index.lookup t).getD []).filter
              (fun n => decide (n ∉ acc)))
          []
    names.filterMap (fun n => c._agents.lookup n)

/-- Well-formedness of a catalog, as `register` establishes it: agent keys are
unique, each entry records its own key as `name`, and every name indexed under
a skill id / tag belongs to a registered agent advertising that skill id /
tag. -/
def AgentCatalog.Wf (c : AgentCatalog) : Prop :=
  (c._agents.map Prod.fst).Nodup
    ∧ (∀ p ∈ c._agents, p.2.name = p.1)
    ∧ (∀ q ∈ c._skill_index, ∀ n ∈ q.2,
        ∃ p ∈ c._agents, p.1 = n ∧ q.1 ∈ p.2.skillIds)
    ∧ (∀ q ∈ c._tag_index, ∀ n ∈ q.2,
        ∃ p ∈ c._agents, p.1 = n ∧ q.1 ∈ p.2.skill_tags)

/-- A successful association-list lookup yields a member pair. -/
theorem lookup_mem {β : Type} {l : List (String × β)} {k : String} {v : β}
    (h : l.lookup k = some v) : (k, v) ∈ l := by
  induction l with
  | nil => cases h
  | cons p rest ih =>
      unfold List.lookup at h
      split at h
      · rename_i heq
        cases h
        rw [show k = p.1 from by simpa using heq]
        exact List.mem_cons_self _ _
      · exact List.mem_cons_of_mem _ (ih h)

/-- In an association list with duplicate-free keys, membership determines the
lookup result. -/
theorem lookup_eq_of_mem {β : Type} {l : List (String × β)}
    (hn : (l.map Prod.fst).Nodup) {p : String × β} (hp : p ∈ l) :
    l.lookup p.1 = some p.2 := by
  induction l with
  | nil => cases hp
  | cons q rest ih =>
      simp only [List.map_cons, List.nodup_cons] at hn
      rcases List.mem_cons.mp hp with hp1 | hp1
      · rw [hp1]
        simp [List.lookup]
      · have hne : p.1 ≠ q.1 := by
          intro hc
          exact hn.1 (hc ▸ List.mem_map_of_mem Prod.fst hp1)
        simp only [List.lookup, beq_eq_false_iff_ne.mpr hne]
        exact ih hn.2 hp1

/-- Cells of `discardName` come from cells of the input with the same key,
either unchanged or with `member` filtered out. -/
theorem mem_discardName {idx : List (String × List String)}
    {key member : String} {q : String × List String}
    (h : q ∈ discardName idx key member) :
    ∃ q0 ∈ idx, q.1 = q0.1
      ∧ (q.2 = q0.2 ∨ q.2 = q0.2.filter (fun n => decide (n ≠ member))) := by
  unfold discardName at h
  obtain ⟨q0, hq0, hq⟩ := List.mem_map.mp h
  by_cases hk : q0.1 = key
  · rw [if_pos hk] at hq
    exact ⟨q0, hq0, by rw [← hq], Or.inr (by rw [← hq])⟩
  · rw [if_neg hk] at hq
    exact ⟨q0, hq0, by rw [← hq], Or.inl (by rw [← hq])⟩

/-- After `discardName idx key member`, the cell at `key` no longer contains
`member`. -/
theorem discardName_scrubs {idx : List (String × List String)}
    {key member : String} {q : String × List String}
    (h : q ∈ discardName idx key member) (hk : q.1 = key) :
    member ∉ q.2 := by
  unfold discardName at h
  obtain ⟨q0, _, hq⟩ := List.mem_map.mp h
  by_cases hk0 : q0.1 = key
  · rw [if_pos hk0] at hq
    rw [← hq]
    intro hc
    rcases List.mem_filter.mp hc with ⟨_, hc2⟩
    simp at hc2
  · rw [if_neg hk0] at hq
    rw [← hq] at hk
    exact absurd hk hk0

/-- Folding `discardName` over a list of keys: every resulting cell descends
from an input cell with the same key (unchanged or filtered), and every cell
whose key was processed no longer contains `member`. -/
theorem discardFold_spec (member : String) (keys : List String) :
    ∀ idx : List (String × List String),
    (∀ q ∈ keys.foldl (fun i k => discardName i k member) idx,
        ∃ q0 ∈ idx, q.1 = q0.1
          ∧ (q.2 = q0.2 ∨ q.2 = q0.2.filter (fun n => decide (n ≠ member))))
      ∧ (∀ q ∈ keys.foldl (fun i k => discardName i k member) idx,
          q.1 ∈ keys → member ∉ q.2) := by
  induction keys with
  | nil =>
      intro idx
      exact ⟨fun q hq => ⟨q, hq, rfl, Or.inl rfl⟩,
        fun q _ hk => absurd hk (by simp)⟩
  | cons k ks ih =>
      intro idx
      rw [List.foldl_cons]
      obtain ⟨j1, j2⟩ := ih (discardName idx k member)
      constructor
      · intro q hq
        obtain ⟨q1, hq1, hk1, hv1⟩ := j1 q hq
        obtain ⟨q0, hq0, hk0, hv0⟩ := mem_discardName hq1
        refine ⟨q0, hq0, hk1.trans hk0, ?_⟩
        rcases hv1 with hv1 | hv1 <;> rcases hv0 with hv0 | hv0
        · exact Or.inl (hv1.trans hv0)
        · exact Or.inr (hv1.trans hv0)
        · exact Or.inr (by rw [hv1, hv0])
        · refine Or.inr ?_
          rw [hv1, hv0, List.filter_filter]
          simp
      · intro q hq hk
        rcases List.mem_cons.mp hk with hk | hk
        · obtain ⟨q1, hq1, hk1, hv1⟩ := j1 q hq
          have hns : member ∉ q1.2 :=
            discardName_scrubs hq1 (by rw [← hk1, hk])
          rcases hv1 with hv1 | hv1
          · rw [hv1]
            exact hns
          · rw [hv1]
            intro hc
            exact hns (List.mem_of_mem_filter hc)
        · exact j2 q hq hk

/-- The skill-index component of `unregister`'s scrub loop is a
`discardName` fold over the entry's skill ids. -/
theorem unregisterFold_fst (member : String) (skills : List AgentSkill) :
    ∀ si ti : List (String × List String),
    (skills.foldl
        (fun (p : List (String × List String) × List (String × List String))
            sk =>
          (discardName p.1 sk.id member,
            sk.tags.foldl (fun x t => discardName x t member) p.2))
        (si, ti)).1
      = (skills.map (fun sk => sk.id)).foldl
          (fun i k => discardName i k member) si := by
  induction skills with
  | nil => intro si ti; rfl
  | cons sk rest ih =>
      intro si ti
      rw [List.foldl_cons, List.map_cons, List.foldl_cons]
      exact ih _ _

/-- The tag-index component of `unregister`'s scrub loop is a `discardName`
fold over the concatenation of the entry's skills' tag lists. -/
theorem unregisterFold_snd (member : String) (skills : List AgentSkill) :
    ∀ si ti : List (String × List String),
    (skills.foldl
        (fun (p : List (String × List String) × List (String × List String))
            sk =>
          (discardName p.1 sk.id member,
            sk.tags.foldl (fun x t => discardName x t member) p.2))
        (si, ti)).2
      = ((skills.map (fun sk => sk.tags)).flatten).foldl
          (fun i k => discardName i k member) ti := by
  induction skills with
  | nil => intro si ti; rfl
  | cons sk rest ih =>
      intro si ti
      rw [List.foldl_cons, List.map_cons, List.flatten_cons, List.foldl_append]
      exact ih _ _

/-- `skill_tags` accumulates onto its accumulator. -/
theorem skill_tags_foldl (skills : List AgentSkill) :
    ∀ acc : List String,
    skills.foldl (fun tags s => tags ++ s.tags) acc
      = acc ++ (skills.map (fun s => s.tags)).flatten := by
  induction skills with
  | nil => intro acc; simp
  | cons sk rest ih =>
      intro acc
      rw [List.foldl_cons, ih, List.map_cons, List.flatten_cons, List.append_assoc]

theorem mem_skill_tags {e : AgentEntry} {t : String} :
    t ∈ e.skill_tags ↔ t ∈ (e.skills.map (fun s => s.tags)).flatten := by
  unfold AgentEntry.skill_tags
  rw [skill_tags_foldl]
  simp

/-- Resolving any name list against the agents that survive a deletion never
produces the deleted name. -/
theorem filterMap_lookup_clean {agents : List (String × AgentEntry)}
    (name : String) (hnm : ∀ p ∈ agents, p.2.name = p.1)
    (names : List String) :
    ∀ a ∈ names.filterMap
        (fun n => (agents.filter (fun p => decide (p.1 ≠ name))).lookup n),
      a.name ≠ name := by
  intro a ha
  obtain ⟨n, _, hlk⟩ := List.mem_filterMap.mp ha
  have hmem := lookup_mem hlk
  rcases List.mem_filter.mp hmem with ⟨hpa, hneq⟩
  rw [hnm (n, a) hpa]
  exact of_decide_eq_true hneq

/-! ## Claim C9 -/

/-- C9: on a well-formed catalog, after `unregister(name)` returns true the
name appears in no skill-index set and no tag-index set, and no
`find_by_skill`, `find_by_tag` or `find_by_tags` result contains that agent;
`unregister` of an absent name returns false and changes nothing. -/
theorem unregister_scrubs_indices (c : AgentCatalog) (name : String)
    (hwf : c.Wf) :
    (∀ entry, c._agents.lookup name = some entry
        → (c.unregister name).1 = true
          ∧ (∀ q ∈ (c.unregister name).2._skill_index, name ∉ q.2)
          ∧ (∀ q ∈ (c.unregister name).2._tag_index, name ∉ q.2)
          ∧ (∀ sid, ∀ a ∈ (c.unregister name).2.find_by_skill sid,
              a.name ≠ name)
          ∧ (∀ tg, ∀ a ∈ (c.unregister name).2.find_by_tag tg, a.name ≠ name)
          ∧ (∀ ts ma, ∀ a ∈ (c.unregister name).2.find_by_tags ts ma,
              a.name ≠ name))
      ∧ (c._agents.lookup name = none → c.unregister name = (false, c)) := by
  obtain ⟨hnd, hnm, hsk, htg⟩ := hwf
  constructor
  · intro entry hent
    have hentmem : (name, entry) ∈ c._agents := lookup_mem hent
    have hc' : c.unregister name
        = (true,
            ⟨c._agents.filter (fun p => decide (p.1 ≠ name)),
              (entry.skills.foldl
                (fun (p : List (String × List String)
                    × List (String × List String)) sk =>
                  (discardName p.1 sk.id name,
                    sk.tags.foldl (fun ti t => discardName ti t name) p.2))
                (c._skill_index, c._tag_index)).1,
              (entry.skills.foldl
                (fun (p : List (String × List String)
                    × List (String × List String)) sk =>
                  (discardName p.1 sk.id name,
                    sk.tags.foldl (fun ti t => discardName ti t name) p.2))
                (c._skill_index, c._tag_index)).2⟩) := by
      unfold AgentCatalog.unregister
      rw [hent]
    have hclean : ∀ names : List String, ∀ a ∈ names.filterMap
        (fun n =>
          (c._agents.filter (fun p => decide (p.1 ≠ name))).lookup n),
        a.name ≠ name := filterMap_lookup_clean name hnm
    refine ⟨by rw [hc'], ?_, ?_, ?_, ?_, ?_⟩
    · intro q hq hmemq
      rw [hc'] at hq
      simp only at hq
      rw [unregisterFold_fst] at hq
      obtain ⟨j1, j2⟩ :=
        discardFold_spec name (entry.skills.map (fun sk => sk.id))
          c._skill_index
      obtain ⟨q0, hq0, hk0, hv0⟩ := j1 q hq
      have hname0 : name ∈ q0.2 := by
        rcases hv0 with hv0 | hv0
        · rw [← hv0]; exact hmemq
        · exact List.mem_of_mem_filter (hv0 ▸ hmemq)
      obtain ⟨p, hpmem, hp1, hp2⟩ := hsk q0 hq0 name hname0
      have hpe : p = (name, entry) :=
        assoc_mem_eq_of_key hnd hpmem hentmem hp1
      have hkin : q.1 ∈ entry.skills.map (fun sk => sk.id) := by
        rw [hk0]
        have := hp2
        rw [hpe] at this
        exact this
      exact absurd hmemq (j2 q hq hkin)
    · intro q hq hmemq
      rw [hc'] at hq
      simp only at hq
      rw [unregisterFold_snd] at hq
      obtain ⟨j1, j2⟩ :=
        discardFold_spec name ((entry.skills.map (fun sk => sk.tags)).flatten)
          c._tag_index
      obtain ⟨q0, hq0, hk0, hv0⟩ := j1 q hq
      have hname0 : name ∈ q0.2 := by
        rcases hv0 with hv0 | hv0
        · rw [← hv0]; exact hmemq
        · exact List.mem_of_mem_filter (hv0 ▸ hmemq)
      obtain ⟨p, hpmem, hp1, hp2⟩ := htg q0 hq0 name hname0
      have hpe : p = (name, entry) :=
        assoc_mem_eq_of_key hnd hpmem hentmem hp1
      have hkin : q.1 ∈ (entry.skills.map (fun sk => sk.tags)).flatten := by
        rw [hk0]
        have := hp2
        rw [hpe] at this
        exact mem_skill_tags.mp this
      exact absurd hmemq (j2 q hq hkin)
    · intro sid a ha
      rw [hc'] at ha
      exact hclean _ a ha
    · intro tg a ha
      rw [hc'] at ha
      exact hclean _ a ha
    · intro ts ma a ha
      rw [hc'] at ha
      unfold AgentCatalog.find_by_tags at ha
      by_cases hts : ts.isEmpty = true
      · rw [if_pos hts] at ha
        unfold AgentCatalog.list_agents at ha
        simp only [if_neg (by simp : ¬(false = true))] at ha
        obtain ⟨p, hpmem, hpa⟩ := List.mem_map.mp ha
        rcases List.mem_filter.mp hpmem with ⟨hpc, hneq⟩
        rw [← hpa, hnm p hpc]
        exact of_decide_eq_true hneq
      · rw [if_neg hts] at ha
        exact hclean _ a ha
  · intro hent
    unfold AgentCatalog.unregister
    rw [hent]

/-- A concrete two-agent catalog with consistent indices. -/
def exampleCatalog : AgentCatalog :=
  ⟨[("alpha", ⟨"alpha", [⟨"x", ["t"]⟩], true⟩),
    ("beta", ⟨"beta", [⟨"y", ["t"]⟩], true⟩)],
   [("x", ["alpha"]), ("y", ["beta"])],
   [("t", ["alpha", "beta"])]⟩

/-- Witness for C9: unregistering `"alpha"` from the concrete catalog returns
true, scrubs `"alpha"` from both indices, and no lookup can return it. -/
theorem unregister_scrubs_indices_witness :
    (exampleCatalog.unregister "alpha").1 = true
      ∧ (∀ q ∈ (exampleCatalog.unregister "alpha").2._skill_index,
          "alpha" ∉ q.2)
      ∧ (∀ q ∈ (exampleCatalog.unregister "alpha").2._tag_index, "alpha" ∉ q.2)
      ∧ (∀ sid, ∀ a ∈ (exampleCatalog.unregister "alpha").2.find_by_skill sid,
          a.name ≠ "alpha")
      ∧ (∀ tg, ∀ a ∈ (exampleCatalog.unregister "alpha").2.find_by_tag tg,
          a.name ≠ "alpha")
      ∧ (∀ ts ma, ∀ a ∈ (exampleCatalog.unregister "alpha").2.find_by_tags
          ts ma, a.name ≠ "alpha") :=
  (unregister_scrubs_indices exampleCatalog "alpha"
      (by unfold AgentCatalog.Wf; decide)).1
    ⟨"alpha", [⟨"x", ["t"]⟩], true⟩ rfl

/-! ## Router façade (`router.py` lines 228–325) -/

/-- `FirstAvailableRouter.select` (`router.py` lines 78–93). -/
def FirstAvailableRouter.select (agents : List AgentEntry) :
    Option AgentEntry :=
  match agents.find? (fun a => a.healthy) with
  | some a => some a
  | none => agents.head?

/-- The deterministic routing strategies (`RoutingStrategy` enum less
`RANDOM`, whose `random.choice` is nondeterministic and out of scope). -/
inductive RoutingStrategy where
  | round_robin
  | skill_match
  | first_available
  | weighted
deriving DecidableEq

/-- The per-strategy router instances' persistent state (`AgentRouter._routers`
cache). -/
structure RouterState where
  rr_index : Nat
  weighted : WeightedState
deriving DecidableEq

/-- Dispatch to the active strategy's `select`, threading its state. -/
def routerSelect (strategy : RoutingStrategy) (st : RouterState)
    (agents : List AgentEntry) (context : Option RoutingContext) :
    Option AgentEntry × RouterState :=
  match strategy with
  | .round_robin =>
      let r := RoundRobinRouter.select st.rr_index agents
      (r.1, ⟨r.2, st.weighted⟩)
  | .first_available => (FirstAvailableRouter.select agents, st)
  | .skill_match => (SkillMatchRouter.select agents context, st)
  | .weighted =>
      let r := WeightedRouter.select st.weighted agents
      (r.1, ⟨st.rr_index, r.2⟩)

/-- The pre-filter predicate of `AgentRouter.route` (lines 308–316): any
requested skill in the agent's skill ids, or else any requested tag in the
agent's tags. -/
def routeMatches (ctx : RoutingContext) (a : AgentEntry) : Bool :=
  ctx.skills.any (fun s => decide (s ∈ a.skillIds))
    || ctx.tags.any (fun t => decide (t ∈ a.skill_tags))

/-- `AgentRouter.route` (`router.py` lines 277–325): list candidates, possibly
pre-filter by the context's skills/tags (keeping the full list when the filter
matches nobody), then delegate to the strategy. -/
def AgentRouter.route (st : RouterState) (c : AgentCatalog)
    (context : Option RoutingContext) (strategy : RoutingStrategy)
    (healthy_only : Bool) : Option AgentEntry × RouterState :=
  let agents := c.list_agents healthy_only
  match agents with
  | [] => (none, st)
  | _ :: _ =>
    let agents' :=
      match context with
      | none => agents
      | some ctx =>
          if ctx.tags.isEmpty && ctx.skills.isEmpty then agents
          else
            let filtered := agents.filter (routeMatches ctx)
            if filtered.isEmpty then agents else filtered
    routerSelect strategy st agents' context

theorem roundRobin_select_isSome (idx : Nat) (a : AgentEntry)
    (rest : List AgentEntry) :
    ((RoundRobinRouter.select idx (a :: rest)).1).isSome = true := by
  simp only [RoundRobinRouter.select]
  rw [List.getElem?_eq_getElem (Nat.mod_lt idx (by simp))]
  rfl

theorem firstAvailable_select_isSome (a : AgentEntry)
    (rest : List AgentEntry) :
    (FirstAvailableRouter.select (a :: rest)).isSome = true := by
  unfold FirstAvailableRouter.select
  cases hf : (a :: rest).find? (fun x => x.healthy) with
  | some b => rfl
  | none => rfl

theorem firstBestBy_cons_isSome (f : AgentEntry → Int) (a : AgentEntry)
    (as : List AgentEntry) : (firstBestBy f (a :: as)).isSome = true := by
  unfold firstBestBy
  cases firstBestBy f as with
  | none => rfl
  | some m =>
      split
      · rfl
      · split <;> rfl

theorem skillMatch_select_isSome (a : AgentEntry) (rest : List AgentEntry)
    (context : Option RoutingContext) :
    (SkillMatchRouter.select (a :: rest) context).isSome = true := by
  rw [skillMatch_select_eq_spec]
  simp only [skillMatchSpec]
  by_cases hany : ((a :: rest).any fun x =>
      decide (0 < skillScore x ((context.map (fun c => c.skills)).getD [])
        ((context.map (fun c => c.tags)).getD []))) = true
  · rw [if_pos hany]
    exact firstBestBy_cons_isSome _ _ _
  · rw [if_neg hany]
    rfl

theorem weighted_select_isSome (st : WeightedState) (a : AgentEntry)
    (rest : List AgentEntry) :
    ((WeightedRouter.select st (a :: rest)).1).isSome = true := by
  simp only [WeightedRouter.select]
  cases hfold : ((a :: rest).foldl (weightedStep st) (none, none)).1 with
  | some b => rfl
  | none => rfl

theorem routerSelect_isSome (strategy : RoutingStrategy) (st : RouterState)
    (a : AgentEntry) (rest : List AgentEntry)
    (context : Option RoutingContext) :
    ((routerSelect strategy st (a :: rest) context).1).isSome = true := by
  cases strategy with
  | round_robin => exact roundRobin_select_isSome st.rr_index a rest
  | first_available => exact firstAvailable_select_isSome a rest
  | skill_match => exact skillMatch_select_isSome a rest context
  | weighted => exact weighted_select_isSome st.weighted a rest

/-! ## Claim C10 -/

/-- C10: `find_by_tags` with an empty tag list returns every registered agent
(`list_agents`), and when the requested skills/tags match no candidate,
`AgentRouter.route` delegates to the strategy over the full unfiltered
candidate list and still returns an agent whenever any candidate exists. -/
theorem route_falls_back (st : RouterState) (c : AgentCatalog)
    (context : Option RoutingContext) (strategy : RoutingStrategy)
    (healthy_only : Bool)
    (hne : c.list_agents healthy_only ≠ [])
    (hnm : ∀ ctx, context = some ctx
        → (c.list_agents healthy_only).filter (routeMatches ctx) = []) :
    (∀ (c2 : AgentCatalog) (ma : Bool),
        c2.find_by_tags [] ma = c2.list_agents false)
      ∧ AgentRouter.route st c context strategy healthy_only
        = routerSelect strategy st (c.list_agents healthy_only) context
      ∧ ((AgentRouter.route st c context strategy healthy_only).1).isSome
        = true := by
  have hEq : AgentRouter.route st c context strategy healthy_only
      = routerSelect strategy st (c.list_agents healthy_only) context := by
    cases hag : c.list_agents healthy_only with
    | nil => exact absurd hag hne
    | cons a rest =>
        simp only [AgentRouter.route, hag]
        cases context with
        | none => rfl
        | some ctx =>
            dsimp only
            have hf : (a :: rest).filter (routeMatches ctx) = [] := by
              rw [← hag]
              exact hnm ctx rfl
            by_cases hemp : (ctx.tags.isEmpty && ctx.skills.isEmpty) = true
            · rw [if_pos hemp]
            · rw [if_neg hemp, hf]
              rfl
  refine ⟨fun c2 ma => rfl, hEq, ?_⟩
  rw [hEq]
  cases hag : c.list_agents healthy_only with
  | nil => exact absurd hag hne
  | cons a rest => exact routerSelect_isSome strategy st a rest context

/-- A one-agent catalog used by the C10 witness. -/
def soloCatalog : AgentCatalog :=
  ⟨[("solo", ⟨"solo", [⟨"x", ["t"]⟩], true⟩)],
   [("x", ["solo"])], [("t", ["solo"])]⟩

/-- A fresh router state. -/
def freshRouterState : RouterState := ⟨0, ⟨[], []⟩⟩

/-- Witness for C10: a context requesting unknown skill/tag matches nobody,
yet routing over the one-agent catalog still selects the agent, via the full
candidate list. -/
theorem route_falls_back_witness :
    soloCatalog.find_by_tags [] false = soloCatalog.list_agents false
      ∧ AgentRouter.route freshRouterState soloCatalog
          (some ⟨["zzz"], ["www"]⟩) .first_available true
        = routerSelect .first_available freshRouterState
            (soloCatalog.list_agents true) (some ⟨["zzz"], ["www"]⟩)
      ∧ ((AgentRouter.route freshRouterState soloCatalog
          (some ⟨["zzz"], ["www"]⟩) .first_available true).1).isSome = true :=
  have h := route_falls_back freshRouterState soloCatalog
    (some ⟨["zzz"], ["www"]⟩) .first_available true (by decide)
    (fun ctx hc => by cases hc; decide)
  ⟨h.1 soloCatalog false, h.2.1, h.2.2⟩
